import Mathlib

/-!
Verification development for the AssistantBot frontend (Keysneu/assistant-bot).

The TypeScript sources are shallowly embedded: JavaScript strings are
modeled as `List Char`, stateful React handlers as explicit functions from
an input state (plus the data returned by the awaited network calls) to an
output state, and the async SSE reader loop of `streamMessage` as a fold
over the list of chunks delivered by the reader.
-/

namespace AssistantBot

/-- JavaScript strings are modeled as lists of characters. -/
abbrev Str := List Char

/-- Coercion from a Lean string literal to the character-list model. -/
def str (s : String) : Str := s.toList

/-- Whitespace test used by the model of `String.prototype.trim`
(restricted to the ASCII whitespace that actually occurs in the data). -/
def isJsSpace (c : Char) : Bool :=
  c == ' ' || c == '\t' || c == '\n' || c == '\r'

/-- Model of JavaScript `s.trim()`: strip whitespace from both ends. -/
def trimChars (l : Str) : Str :=
  ((l.dropWhile isJsSpace).reverse.dropWhile isJsSpace).reverse

/-- Model of JavaScript `buffer.split("\n")`: split at every newline.
The result is always non-empty; the last element is the text after the
final newline (possibly empty). -/
def splitOnNl : Str → List Str
  | [] => [[]]
  | c :: rest =>
    if c = '\n' then [] :: splitOnNl rest
    else
      match splitOnNl rest with
      | [] => [[c]]
      | l :: ls => (c :: l) :: ls

/-- Prepend a character to the first piece of a split (helper for
`splitOnNl` equations). -/
def consFirst (c : Char) : List Str → List Str
  | [] => [[c]]
  | l :: ls => (c :: l) :: ls

/-- Merge a piece into the first piece of a split (helper for stating
how `splitOnNl` acts on concatenations). -/
def mergeFirst (x : Str) : List Str → List Str
  | [] => [x]
  | y :: ys => (x ++ y) :: ys

/-- Concatenation of two splits: every piece of the first except the
last, then the last piece merged into the head of the second. -/
def joinParts : List Str → List Str → List Str
  | [], b => b
  | [x], b => mergeFirst x b
  | x :: y :: xs, b => x :: joinParts (y :: xs) b

/-- Model of `const lines = parts; buffer = lines.pop() || ""`:
returns the list without its last element, together with the last
element (the empty string when the list is empty, matching `|| ""`). -/
def popLast : List Str → List Str × Str
  | [] => ([], [])
  | [x] => ([], x)
  | x :: y :: xs =>
    let r := popLast (y :: xs)
    (x :: r.1, r.2)

/-! ### The SSE data payloads

`streamMessage` (src/frontend/src/App.tsx, `lib/api.ts` section) reads
`parsed.session_id`, `parsed.token` and `parsed.error` from the value
returned by `JSON.parse(data)`.  Only those three fields are relevant, so
a parsed payload is modeled by the record below (a missing field is
`none`).  The parse function itself (`JSON.parse`, which can throw on
malformed data, modeled by `Option`) is a parameter of the machine; a
concrete executable instance `parseSseJson` for flat string-valued JSON
objects is defined further down for concrete runs. -/

structure SseData where
  session_id : Option Str := none
  token : Option Str := none
  error : Option Str := none
deriving DecidableEq

/-- Model of `parsed.token || ""`: for a string-valued or absent `token`
field this is the field value, defaulting to the empty string. -/
def jsTokenValue (d : SseData) : Str := d.token.getD []

/-- Mutable state threaded through the `streamMessage` reader loop:
`currentEvent` (initially `""`) and `sessionIdRef.current`. -/
structure SseState where
  currentEvent : Str
  sessionId : Option Str
deriving DecidableEq

/-- Translation of the body of `for (const line of lines)` in
`streamMessage` for a single line.  Returns the next state, the token
fragment yielded by this line (if any), and whether the generator
returned (`done` event).

Note on the `error` branch: in the source, `throw new Error(parsed.error
|| "Unknown error")` is raised inside the same `try` block whose `catch`
only calls `console.error`, so the exception is swallowed and the loop
continues; the branch therefore has no effect on the caller. -/
def processLine (parse : Str → Option SseData) (s : SseState) (line : Str) :
    SseState × Option Str × Bool :=
  if trimChars line = [] then (s, none, false)
  else if (str "event: ").isPrefixOf line then
    ({ s with currentEvent := trimChars (line.drop 7) }, none, false)
  else if (str "data: ").isPrefixOf line then
    match parse (line.drop 6) with
    | none => (s, none, false)
    | some parsed =>
      if s.currentEvent = str "metadata" then
        ({ s with sessionId := parsed.session_id }, none, false)
      else if s.currentEvent = str "token" then
        (s, some (jsTokenValue parsed), false)
      else if s.currentEvent = str "done" then
        (s, none, true)
      else if s.currentEvent = str "error" then
        (s, none, false)
      else
        (s, none, false)
  else (s, none, false)

/-- Result of running the line loop: final state, the token fragments
yielded, and whether the generator returned via a `done` event. -/
structure LineRun where
  state : SseState
  output : List Str
  halted : Bool
deriving DecidableEq

/-- Translation of `for (const line of lines) { ... }` over a list of
complete lines, stopping early when a `done` event returns. -/
def processLines (parse : Str → Option SseData) : SseState → List Str → LineRun
  | s, [] => ⟨s, [], false⟩
  | s, line :: rest =>
    let p := processLine parse s line
    if p.2.2 then ⟨p.1, p.2.1.toList, true⟩
    else
      let r := processLines parse p.1 rest
      ⟨r.state, p.2.1.toList ++ r.output, r.halted⟩

/-- Translation of the `while (true)` reader loop of `streamMessage`:
each chunk is appended to the buffer, the buffer is split on newlines,
the trailing partial line is kept as the new buffer, and the complete
lines are processed.  When the reader is exhausted the loop breaks,
discarding the residual buffer.  (`decoder.decode(value, {stream:true})`
is the identity on the character-list model of chunks.) -/
def processChunks (parse : Str → Option SseData) :
    SseState → Str → List Str → SseState × List Str
  | s, _, [] => (s, [])
  | s, buffer, chunk :: rest =>
    let p := popLast (splitOnNl (buffer ++ chunk))
    let r := processLines parse s p.1
    if r.halted then (r.state, r.output)
    else
      let r2 := processChunks parse r.state p.2 rest
      (r2.1, r.output ++ r2.2)

/-- The sequence of token fragments yielded by `streamMessage` when the
response body delivers the given chunks.  `sessionId` initializes
`sessionIdRef.current`. -/
def streamTokens (parse : Str → Option SseData) (sessionId : Option Str)
    (chunks : List Str) : List Str :=
  (processChunks parse ⟨[], sessionId⟩ [] chunks).2

/-! ### Specification-side view of an SSE stream

An *event* of the stream is a successfully parsed `data:` line together
with the event name currently in force (set by the preceding `event:`
line).  This is the event view used by the claims about `streamMessage`. -/

/-- The list of events carried by a list of complete SSE lines, given the
event name currently in force. -/
def sseEvents (parse : Str → Option SseData) : Str → List Str → List (Str × SseData)
  | _, [] => []
  | ev, line :: rest =>
    if trimChars line = [] then sseEvents parse ev rest
    else if (str "event: ").isPrefixOf line then
      sseEvents parse (trimChars (line.drop 7)) rest
    else if (str "data: ").isPrefixOf line then
      match parse (line.drop 6) with
      | none => sseEvents parse ev rest
      | some d => (ev, d) :: sseEvents parse ev rest
    else sseEvents parse ev rest

/-- Specification-side token extraction: the `token` field values (an
absent field counting as the empty string, as in `parsed.token || ""`)
of the `token`-typed events that precede the first `done` event. -/
def tokensBeforeDone (events : List (Str × SseData)) : List Str :=
  (events.takeWhile (fun e => decide (e.1 ≠ str "done"))).filterMap
    (fun e => if e.1 = str "token" then some (jsTokenValue e.2) else none)

/-- The complete lines of the concatenated response body, in the order
the reader loop processes them (the text after the last newline is the
final buffer residue and is never processed). -/
def completeLines (full : Str) : List Str := (popLast (splitOnNl full)).1

/-! ### A concrete instance of `JSON.parse` for the SSE payloads

The server payloads are flat JSON objects with string values, such as
`\x7b"token": "..."\x7d` or `\x7b"session_id": "..."\x7d`.  The parser
below implements `JSON.parse` restricted to that shape (whitespace,
string escapes, several members); on anything else it returns `none`
(modeling the exception caught by the surrounding `catch`).  It is used
to run the machine on concrete inputs. -/

/-- Parse the body of a JSON string after the opening quote; returns the
decoded content and the remaining input after the closing quote. -/
def parseJsonStringBody : Str → Option (Str × Str)
  | [] => none
  | c :: rest =>
    if c = '"' then some ([], rest)
    else if c = '\\' then
      match rest with
      | [] => none
      | e :: rest2 =>
        let ec : Option Char :=
          if e = '"' then some '"'
          else if e = '\\' then some '\\'
          else if e = '/' then some '/'
          else if e = 'n' then some '\n'
          else if e = 't' then some '\t'
          else if e = 'r' then some '\r'
          else if e = 'b' then some (Char.ofNat 8)
          else if e = 'f' then some (Char.ofNat 12)
          else none
        match ec with
        | none => none
        | some ch =>
          match parseJsonStringBody rest2 with
          | none => none
          | some (s, r) => some (ch :: s, r)
    else
      match parseJsonStringBody rest with
      | none => none
      | some (s, r) => some (c :: s, r)

/-- Drop leading JSON whitespace. -/
def skipWs (l : Str) : Str := l.dropWhile isJsSpace

/-- The opening-brace character. -/
def lbrace : Char := Char.ofNat 123

/-- The closing-brace character. -/
def rbrace : Char := Char.ofNat 125

/-- Parse the members of a flat string-valued JSON object, positioned
after the opening brace (or after a comma).  The fuel argument bounds
the recursion; callers pass the input length, which suffices because
every member consumes at least one character. -/
def parseJsonMembers : Nat → Str → Option (List (Str × Str))
  | 0, _ => none
  | fuel + 1, l =>
    match skipWs l with
    | '"' :: rest =>
      match parseJsonStringBody rest with
      | none => none
      | some (key, r1) =>
        match skipWs r1 with
        | ':' :: r2 =>
          match skipWs r2 with
          | '"' :: r3 =>
            match parseJsonStringBody r3 with
            | none => none
            | some (val, r4) =>
              match skipWs r4 with
              | c :: r5 =>
                if c = ',' then
                  match parseJsonMembers fuel r5 with
                  | none => none
                  | some kvs => some ((key, val) :: kvs)
                else if c = rbrace then
                  if skipWs r5 = [] then some [(key, val)] else none
                else none
              | [] => none
          | _ => none
        | _ => none
    | _ => none

/-- Model of `JSON.parse(data)` for flat string-valued objects, keeping
the three fields the code reads.  Returns `none` (an exception) on
anything else. -/
def parseSseJson (l : Str) : Option SseData :=
  match skipWs l with
  | c :: rest =>
    if c = lbrace then
      match skipWs rest with
      | d :: r2 =>
        if d = rbrace then
          if skipWs r2 = [] then some {} else none
        else
          match parseJsonMembers (l.length + 1) rest with
          | none => none
          | some kvs =>
            some { session_id := kvs.lookup (str "session_id"),
                   token := kvs.lookup (str "token"),
                   error := kvs.lookup (str "error") }
      | [] => none
    else none
  | [] => none

/-! ### streamMessage request construction (src/frontend/src/App.tsx)

The part of `streamMessage` that runs before the fetch: computing
`effectiveMessage` and assembling the request body. -/

/-- Truthiness of `(imageData && imageData.trim())` for an optional
string argument (`undefined` and the empty string are falsy). -/
def imageTruthy (imageData : Option Str) : Bool :=
  match imageData with
  | none => false
  | some d => if d = [] then false else decide (trimChars d ≠ [])

/-- Translation of
`const effectiveMessage = (message.trim() || (imageData && imageData.trim())) ? message.trim() : " ";`.
The code's own comment says: when an image is provided but the message is
empty, use a space as placeholder. -/
def effectiveMessage (message : Str) (imageData : Option Str) : Str :=
  if trimChars message ≠ [] ∨ imageTruthy imageData then trimChars message
  else str " "

/-- The JSON body posted to `/api/chat/stream`. -/
structure ChatRequestBody where
  message : Str
  session_id : Option Str
  image : Option Str := none
  image_format : Option Str := none
deriving DecidableEq

/-- Translation of the request-body construction in `streamMessage`:
`image`/`image_format` are attached only when `imageData && imageData.trim()`
is truthy, with the format defaulting to `"png"`. -/
def buildStreamRequest (message : Str) (sessionId : Option Str)
    (imageData : Option Str) (imageFormat : Option Str) : ChatRequestBody :=
  let base : ChatRequestBody :=
    { message := effectiveMessage message imageData, session_id := sessionId }
  if imageTruthy imageData then
    { base with
        image := imageData,
        image_format := some (match imageFormat with
          | none => str "png"
          | some f => if f = [] then str "png" else f) }
  else base

/-! ### DocumentManager (src/frontend/src/components/DocumentManager.tsx)

The component state relevant to the claims; transient spinner flags
(`isLoading`, `isUploading`, `isAddingUrl`), which are set and reset
within the same handler, are not modeled. -/

/-- A fetched document entry (the `DocumentInfo` interface).  `created_at`
is a date string in the source; it is modeled by the epoch value that
`new Date(created_at).getTime()` yields for it, with `none` for `null`
(for which `new Date(0)` gives epoch 0). -/
structure DocumentInfo where
  document_id : Str
  source : Str
  chunk_count : Nat
  file_type : Option Str
  created_at : Option Int
deriving DecidableEq

/-- Model of `new Date(a.created_at || 0).getTime()`. -/
def dateValue (d : DocumentInfo) : Int := d.created_at.getD 0

/-- The three sort modes of the document list. -/
inductive SortType where
  | newest
  | oldest
  | name
deriving DecidableEq

/-- Lexicographic string comparison by code points, modeling
`a.source.localeCompare(b.source)` (negative, zero or positive). -/
def strCompare : Str → Str → Int
  | [], [] => 0
  | [], _ :: _ => -1
  | _ :: _, [] => 1
  | a :: as, b :: bs =>
    if a.toNat < b.toNat then -1
    else if b.toNat < a.toNat then 1
    else strCompare as bs

/-- The comparator passed to `[...documents].sort(...)`. -/
def docCompare (t : SortType) (a b : DocumentInfo) : Int :=
  match t with
  | .name => strCompare a.source b.source
  | .newest => dateValue b - dateValue a
  | .oldest => dateValue a - dateValue b

/-- Model of `sortedDocuments`: the fetched list sorted by the
comparator (JavaScript `Array.prototype.sort`, modeled by a stable merge
sort ordered by the comparator). -/
def sortedDocuments (t : SortType) (docs : List DocumentInfo) : List DocumentInfo :=
  docs.mergeSort (fun a b => decide (docCompare t a b ≤ 0))

/-- The page size constant of the component. -/
def pageSize : Nat := 9

/-- Model of `l.slice(start, stop)` for non-negative indices. -/
def jsSlice (l : List DocumentInfo) (start stop : Nat) : List DocumentInfo :=
  (l.take stop).drop start

/-- Model of `paginatedDocuments = sortedDocuments.slice((page-1)*pageSize, page*pageSize)`. -/
def paginatedDocuments (t : SortType) (docs : List DocumentInfo) (page : Nat) :
    List DocumentInfo :=
  jsSlice (sortedDocuments t docs) ((page - 1) * pageSize) (page * pageSize)

/-- Model of `totalPages = Math.ceil(sortedDocuments.length / pageSize)`. -/
def totalPages (t : SortType) (docs : List DocumentInfo) : Nat :=
  ((sortedDocuments t docs).length + pageSize - 1) / pageSize

/-- DocumentManager state relevant to the ingest handlers. -/
structure DocManagerState where
  documents : List DocumentInfo
  totalCount : Nat
  totalChunks : Nat
  addDialogOpen : Bool
  errorMsg : Option Str
  successMsg : Option Str
  urlInput : Str
deriving DecidableEq

/-- Response of `getDocumentList` (the `DocumentListResponse` interface). -/
structure DocumentListResponse where
  documents : List DocumentInfo
  total_count : Nat
  total_chunks : Nat
deriving DecidableEq

/-- Effect of a successful `loadDocuments()` call: clears the error and
installs the fetched list and counters. -/
def applyLoadDocuments (s : DocManagerState) (resp : DocumentListResponse) :
    DocManagerState :=
  { s with errorMsg := none,
           documents := resp.documents,
           totalCount := resp.total_count,
           totalChunks := resp.total_chunks }

/-- The JSON body returned by the upload endpoint, reduced to the field
the handler inspects (`result.status`; `none` models a missing field). -/
structure UploadResponse where
  status : Option Str
deriving DecidableEq

/-- Success banner of `handleFileSelect`. -/
def uploadSuccessMsg (fileName : Str) : Str :=
  str "文档 \"" ++ fileName ++ str "\" 上传成功"

/-- Translation of `handleFileSelect` in DocumentManager, given the JSON
value the upload request resolved to and the list returned by the
subsequent `loadDocuments` fetch (used only on the success path).  The
second component records whether `loadDocuments()` was called (a
document-list reload). -/
def handleFileSelect (s : DocManagerState) (fileName : Str)
    (result : UploadResponse) (listResp : DocumentListResponse) :
    DocManagerState × Bool :=
  let s0 : DocManagerState := { s with errorMsg := none, successMsg := none }
  if result.status = some (str "ready") then
    (applyLoadDocuments
      { s0 with successMsg := some (uploadSuccessMsg fileName) } listResp, true)
  else
    ({ s0 with errorMsg := result.status }, false)

/-- One entry of the `ingestUrls` response (`result.documents[i]`). -/
structure IngestDocStatus where
  status : Option Str
  chunk_count : Option Nat
deriving DecidableEq

/-- The `ingestUrls` response; the `documents` array itself may be
missing (`result.documents?.[0]`). -/
structure IngestUrlsResponse where
  documents : Option (List IngestDocStatus)
deriving DecidableEq

/-- Decimal rendering of a chunk count (for the success banner). -/
def natStr (n : Nat) : Str := (Nat.repr n).toList

/-- Success banner of `handleAddUrl`. -/
def urlSuccessMsg (url : Str) (chunks : Nat) : Str :=
  str "URL \"" ++ url ++ str "\" 添加成功，已处理 " ++ natStr chunks ++ str " 个片段"

/-- The generic failure banner of `handleAddUrl`. -/
def addUrlFailMsg : Str := str "添加 URL 失败"

/-- The validation banner for a malformed URL. -/
def invalidUrlMsg : Str := str "请输入有效的 URL"

/-- Translation of `handleAddUrl` in DocumentManager.  The result is the
final state, whether the ingest request was issued, and whether
`loadDocuments()` was called.  `result` is the JSON the ingest request
would resolve to and `listResp` the list fetched by `loadDocuments`;
both are unused when validation rejects the input. -/
def handleAddUrl (s : DocManagerState) (result : IngestUrlsResponse)
    (listResp : DocumentListResponse) : DocManagerState × Bool × Bool :=
  let url := trimChars s.urlInput
  if url = [] then (s, false, false)
  else if ¬ (str "http://").isPrefixOf url ∧ ¬ (str "https://").isPrefixOf url then
    ({ s with errorMsg := some invalidUrlMsg }, false, false)
  else
    let s0 : DocManagerState := { s with errorMsg := none, successMsg := none }
    match (result.documents.getD []).head? with
    | some firstDoc =>
      if firstDoc.status = some (str "ready") then
        (applyLoadDocuments
          { s0 with successMsg := some (urlSuccessMsg url (firstDoc.chunk_count.getD 0)),
                    urlInput := [],
                    addDialogOpen := false } listResp, true, true)
      else
        match firstDoc.status with
        | some st =>
          if (str "failed").isPrefixOf st then
            ({ s0 with errorMsg := some st }, true, false)
          else
            ({ s0 with errorMsg := some addUrlFailMsg }, true, false)
        | none => ({ s0 with errorMsg := some addUrlFailMsg }, true, false)
    | none => ({ s0 with errorMsg := some addUrlFailMsg }, true, false)

/-- The status of the first returned document, when present
(`result.documents?.[0]?.status`). -/
def firstDocStatus (r : IngestUrlsResponse) : Option Str :=
  (r.documents.getD []).head?.bind (fun d => d.status)

/-! ### SessionList (src/unnamed/part_000) -/

/-- Translation of `truncateTitle` in SessionList. -/
def truncateTitle (title : Str) (maxLength : Nat := 25) : Str :=
  if title.length ≤ maxLength then title
  else title.take maxLength ++ str "..."

/-! ### ChatBox (src/frontend/src/components/ChatBox.tsx section)

Timestamps (`new Date()`) are wall-clock reads and are not modeled; the
remaining `ChatMessage` fields are kept. -/

/-- A chat message as kept in the ChatBox `messages` state. -/
structure ChatMessageM where
  role : Str
  content : Str
  hasImage : Bool := false
  imageData : Option Str := none
  imageFormat : Option Str := none
deriving DecidableEq

/-- ChatBox state relevant to `handleSubmit`. -/
structure ChatBoxState where
  messages : List ChatMessageM
  input : Str
  isLoading : Bool
  isBackendAvailable : Bool
  selectedImageData : Str
  selectedImageFormat : Str
deriving DecidableEq

/-- The canned assistant message appended when the backend is marked
unavailable. -/
def offlineWarningMsg : ChatMessageM :=
  { role := str "assistant", content := str "⚠️ 后端服务器未连接，请先启动后端服务。" }

/-- Outcome of `handleSubmit`:
`ignored` — the early return (no request, no state change);
`offlineWarning` — backend unavailable: a local warning message is
appended and the inputs are cleared, but no request is sent;
`streamRequest` — `streamMessage(message, sessionId, image, format)` is
invoked, with the user message and an empty assistant placeholder
appended. -/
inductive SubmitResult where
  | ignored (s : ChatBoxState)
  | offlineWarning (s : ChatBoxState)
  | streamRequest (message : Str) (imageData : Str) (imageFormat : Str) (s : ChatBoxState)
deriving DecidableEq

/-- Translation of `handleSubmit` in ChatBox up to the point where the
stream request is issued (the token loop that follows is the
`streamMessage` machine above). -/
def chatHandleSubmit (s : ChatBoxState) : SubmitResult :=
  if (trimChars s.input = [] ∧ s.selectedImageData = []) ∨ s.isLoading then
    .ignored s
  else if s.isBackendAvailable = false then
    .offlineWarning { s with
      messages := s.messages ++ [offlineWarningMsg],
      input := [],
      selectedImageData := [],
      selectedImageFormat := [] }
  else
    let userMessage : ChatMessageM :=
      { role := str "user",
        content := trimChars s.input,
        hasImage := s.selectedImageData ≠ [],
        imageData := if s.selectedImageData = [] then none else some s.selectedImageData,
        imageFormat := if s.selectedImageFormat = [] then none else some s.selectedImageFormat }
    let assistantMessage : ChatMessageM := { role := str "assistant", content := [] }
    .streamRequest (trimChars s.input) s.selectedImageData s.selectedImageFormat
      { s with
        messages := s.messages ++ [userMessage, assistantMessage],
        input := [],
        selectedImageData := [],
        selectedImageFormat := [],
        isLoading := true }

/-- Whether a submit outcome invoked `streamMessage`. -/
def isStreamRequest : SubmitResult → Bool
  | .streamRequest _ _ _ _ => true
  | _ => false

/-! ### ImageUploader (src/frontend/src/App.tsx, ImageUploader section) -/

/-- The fields of a browser `File` object read by `handleFileSelect`. -/
structure JsFile where
  type : Str
  size : Nat
deriving DecidableEq

/-- Letter-or-plus test for the format regex character class `[a-zA-Z+]`. -/
def isFormatChar (c : Char) : Bool :=
  (('a' ≤ c) && (c ≤ 'z')) || (('A' ≤ c) && (c ≤ 'Z')) || (c == '+')

/-- Match of the regex `data:image\/([a-zA-Z+]+);base64` starting at the
given position: the pattern literal, a non-empty run of format
characters, then `;base64`. -/
def formatMatchAt (l : Str) : Option Str :=
  if (str "data:image/").isPrefixOf l then
    let rest := l.drop 11
    let fmt := rest.takeWhile isFormatChar
    if fmt ≠ [] ∧ (str ";base64").isPrefixOf (rest.drop fmt.length) then some fmt
    else none
  else none

/-- First match of the format regex anywhere in the string
(`result.match(/data:image\/([a-zA-Z+]+);base64/)`, capture group 1). -/
def formatMatch : Str → Option Str
  | [] => none
  | c :: rest =>
    match formatMatchAt (c :: rest) with
    | some fmt => some fmt
    | none => formatMatch rest

/-- Split at commas, for `result.split(",")[1]` (index 1 may be absent). -/
def splitOnComma : Str → List Str
  | [] => [[]]
  | c :: rest =>
    if c = ',' then [] :: splitOnComma rest
    else
      match splitOnComma rest with
      | [] => [[c]]
      | l :: ls => (c :: l) :: ls

/-- Outcome of the ImageUploader `handleFileSelect`:
`ignored` — no callback fired and the preview state unchanged;
`selected` — `setPreview(result)` and `onImageSelect(base64Data, format)`
fired (`base64Data` is `undefined` when the data URL has no comma). -/
inductive UploadSelectResult where
  | ignored
  | selected (preview : Str) (imageData : Option Str) (format : Str)
deriving DecidableEq

/-- Translation of `handleFileSelect` in ImageUploader.  `readResult` is
the data URL the `FileReader` delivers to `onload` (`none` when no load
event with a truthy result occurs; the reader itself is external I/O). -/
def imageHandleFileSelect (file : Option JsFile) (readResult : Option Str) :
    UploadSelectResult :=
  match file with
  | none => .ignored
  | some f =>
    if ¬ (str "image/").isPrefixOf f.type then .ignored
    else if f.size > 10 * 1024 * 1024 then .ignored
    else
      match readResult with
      | none => .ignored
      | some result =>
        if result = [] then .ignored
        else
          let format := (formatMatch result).getD (str "png")
          let base64Data := (splitOnComma result).get? 1
          .selected result base64Data format

/-- Whether the uploader outcome fired the selection callback. -/
def isSelected : UploadSelectResult → Bool
  | .selected _ _ _ => true
  | .ignored => false

/-!
## Theorems
-/

/-- Claim C7: `truncateTitle` returns the title unchanged when its length
is at most 25 characters, and otherwise exactly the first 25 characters
followed by `"..."`; the result is always a take-prefix of the title,
possibly suffixed with the ellipsis, and its length never exceeds 28. -/
theorem truncateTitle_spec (title : Str) :
    (title.length ≤ 25 → truncateTitle title = title)
    ∧ (25 < title.length → truncateTitle title = title.take 25 ++ str "...")
    ∧ (truncateTitle title).length ≤ 28
    ∧ ∃ n, truncateTitle title = title.take n
        ∨ truncateTitle title = title.take n ++ str "..." := by
  by_cases h : title.length ≤ 25
  · refine ⟨fun _ => ?_, fun h2 => absurd h (by omega), ?_, ?_⟩
    · simp [truncateTitle, h]
    · simp [truncateTitle, h]; omega
    · exact ⟨title.length, Or.inl (by simp [truncateTitle, h])⟩
  · refine ⟨fun h2 => absurd h2 h, fun _ => ?_, ?_, ?_⟩
    · simp [truncateTitle, h]
    · simp [truncateTitle, h, str]
    · exact ⟨25, Or.inr (by simp [truncateTitle, h])⟩

/-- Witness for C7: a short title is returned unchanged and a 32-character
title is cut to its first 25 characters plus the ellipsis. -/
theorem truncateTitle_spec_witness :
    truncateTitle (str "this is a short title") = str "this is a short title"
    ∧ truncateTitle (str "abcdefghijklmnopqrstuvwxyz123456")
        = (str "abcdefghijklmnopqrstuvwxyz123456").take 25 ++ str "..." :=
  ⟨(truncateTitle_spec (str "this is a short title")).1 (by decide),
   (truncateTitle_spec (str "abcdefghijklmnopqrstuvwxyz123456")).2.1 (by decide)⟩

/-- Claim C8 (code bug): when the message trims to empty but non-blank
image data is provided, the truthy image branch of the conditional
selects `message.trim()`, so the request body's `message` field is the
empty string rather than the single-space placeholder the code's own
comment promises. -/
theorem effectiveMessage_empty_with_image :
    (buildStreamRequest (str " ") none (some (str "abc")) none).message = []
    ∧ effectiveMessage [] (some (str "abc")) = []
    ∧ effectiveMessage [] none = str " " := by decide

/-- Claim C10: the ImageUploader selection callback fires only for a
present file whose MIME type starts with `image/` and whose size is at
most 10485760 bytes; a missing, non-image or oversized file is ignored. -/
theorem imageUploader_select_spec (file : Option JsFile) (readResult : Option Str) :
    (isSelected (imageHandleFileSelect file readResult) = true →
      ∃ f, file = some f ∧ (str "image/").isPrefixOf f.type = true ∧ f.size ≤ 10485760)
    ∧ (file = none → imageHandleFileSelect file readResult = .ignored)
    ∧ (∀ f, file = some f → (str "image/").isPrefixOf f.type = false →
        imageHandleFileSelect file readResult = .ignored)
    ∧ (∀ f, file = some f → 10485760 < f.size →
        imageHandleFileSelect file readResult = .ignored) := by
  refine ⟨?_, ?_, ?_, ?_⟩
  · intro hsel
    cases file with
    | none => simp [imageHandleFileSelect, isSelected] at hsel
    | some f =>
      by_cases hp : (str "image/").isPrefixOf f.type
      · by_cases hs : f.size > 10 * 1024 * 1024
        · simp [imageHandleFileSelect, hp, hs, isSelected] at hsel
        · exact ⟨f, rfl, hp, by omega⟩
      · simp [imageHandleFileSelect, hp, isSelected] at hsel
  · intro h; subst h; rfl
  · intro f hf hp
    subst hf
    simp [imageHandleFileSelect, hp]
  · intro f hf hs
    subst hf
    have hs2 : f.size > 10 * 1024 * 1024 := by omega
    by_cases hp : (str "image/").isPrefixOf f.type
    · simp [imageHandleFileSelect, hp, hs2]
    · simp [imageHandleFileSelect, hp]

/-- Witness for C10: a text file, an oversized image and a missing file
are all ignored. -/
theorem imageUploader_select_spec_witness :
    imageHandleFileSelect (some ⟨str "text/plain", 100⟩)
        (some (str "data:image/png;base64,AAAA")) = .ignored
    ∧ imageHandleFileSelect (some ⟨str "image/png", 10485761⟩)
        (some (str "data:image/png;base64,AAAA")) = .ignored
    ∧ imageHandleFileSelect none none = .ignored :=
  ⟨(imageUploader_select_spec _ _).2.2.1 _ rfl (by decide),
   (imageUploader_select_spec _ _).2.2.2 _ rfl (by decide),
   (imageUploader_select_spec _ _).2.1 rfl⟩

/-- Claim C6 (counterexample): with non-empty input text, no request in
flight, but the backend marked unavailable, `handleSubmit` sends no chat
request (it appends a local warning instead), refuting the claimed
"if and only if". -/
theorem chatHandleSubmit_counterexample :
    trimChars (str "hi") ≠ []
    ∧ (⟨[], str "hi", false, false, [], []⟩ : ChatBoxState).isLoading = false
    ∧ isStreamRequest (chatHandleSubmit ⟨[], str "hi", false, false, [], []⟩) = false := by
  decide

/-- Claim C6 (amended): `handleSubmit` sends a chat request if and only
if the trimmed input is non-empty or an image is attached, no request is
in flight, and the backend is believed available; when neither text nor
image is present it returns without sending and without appending. -/
theorem chatHandleSubmit_spec (s : ChatBoxState) :
    (isStreamRequest (chatHandleSubmit s) = true ↔
      ((trimChars s.input ≠ [] ∨ s.selectedImageData ≠ [])
        ∧ s.isLoading = false ∧ s.isBackendAvailable = true))
    ∧ (trimChars s.input = [] → s.selectedImageData = [] →
        chatHandleSubmit s = .ignored s) := by
  constructor
  · by_cases h1 : (trimChars s.input = [] ∧ s.selectedImageData = []) ∨ s.isLoading = true
    · rw [show chatHandleSubmit s = .ignored s by unfold chatHandleSubmit; simp [h1]]
      simp only [isStreamRequest]
      constructor
      · intro hf; exact absurd hf (by simp)
      · rintro ⟨hne, hload, _⟩
        rcases h1 with ⟨ha, hb⟩ | hl
        · rcases hne with hne | hne <;> simp_all
        · simp_all
    · by_cases h2 : s.isBackendAvailable = false
      · have hs : isStreamRequest (chatHandleSubmit s) = false := by
          unfold chatHandleSubmit; simp [h1, h2, isStreamRequest]
        rw [hs]
        constructor
        · intro hf; exact absurd hf (by simp)
        · rintro ⟨_, _, hav⟩
          rw [hav] at h2
          exact absurd h2 (by simp)
      · have hs : isStreamRequest (chatHandleSubmit s) = true := by
          unfold chatHandleSubmit; simp [h1, h2, isStreamRequest]
        rw [hs]
        constructor
        · intro _
          push_neg at h1
          refine ⟨?_, by simpa using h1.2, by simpa using h2⟩
          by_cases ht : trimChars s.input = []
          · exact Or.inr (h1.1 ht)
          · exact Or.inl ht
        · intro _; rfl
  · intro ha hb
    unfold chatHandleSubmit
    simp [ha, hb]

/-- Witness for C6 (amended): with empty input and no image the handler
is a no-op. -/
theorem chatHandleSubmit_spec_witness :
    chatHandleSubmit ⟨[], [], false, true, [], []⟩
      = .ignored ⟨[], [], false, true, [], []⟩ :=
  (chatHandleSubmit_spec _).2 (by decide) rfl

/-- Claim C4 (counterexample): the input `" https://example.com"` is
non-empty and does not start with `"http://"` or `"https://"`, yet
`handleAddUrl` does issue the ingest request, because the input is
trimmed before validation. -/
theorem handleAddUrl_counterexample :
    (str "http://").isPrefixOf (str " https://example.com") = false
    ∧ (str "https://").isPrefixOf (str " https://example.com") = false
    ∧ str " https://example.com" ≠ []
    ∧ (handleAddUrl ⟨[], 0, 0, true, none, none, str " https://example.com"⟩
        ⟨some []⟩ ⟨[], 0, 0⟩).2.1 = true := by decide

/-- Claim C4 (amended): for every URL input whose trimmed value is empty
`handleAddUrl` returns silently with no request and no state change, and
for every input whose trimmed value is non-empty and does not start with
`"http://"` or `"https://"` it reports the validation error and issues no
request; in both cases the document list, counts and dialog state are
unchanged. -/
theorem handleAddUrl_validation_spec (s : DocManagerState)
    (result : IngestUrlsResponse) (listResp : DocumentListResponse) :
    (trimChars s.urlInput = [] → handleAddUrl s result listResp = (s, false, false))
    ∧ (trimChars s.urlInput ≠ [] →
        (str "http://").isPrefixOf (trimChars s.urlInput) = false →
        (str "https://").isPrefixOf (trimChars s.urlInput) = false →
        handleAddUrl s result listResp =
          ({ s with errorMsg := some invalidUrlMsg }, false, false)) := by
  constructor
  · intro h
    unfold handleAddUrl
    simp [h]
  · intro h1 h2 h3
    unfold handleAddUrl
    simp [h1, h2, h3]

/-- Witness for C4 (amended): an `ftp://` input is rejected with the
validation banner and a whitespace-only input is ignored silently. -/
theorem handleAddUrl_validation_spec_witness :
    handleAddUrl ⟨[], 0, 0, true, none, none, str "ftp://x"⟩ ⟨none⟩ ⟨[], 0, 0⟩
      = (⟨[], 0, 0, true, some invalidUrlMsg, none, str "ftp://x"⟩, false, false)
    ∧ handleAddUrl ⟨[], 0, 0, true, none, none, str "  "⟩ ⟨none⟩ ⟨[], 0, 0⟩
      = (⟨[], 0, 0, true, none, none, str "  "⟩, false, false) :=
  ⟨(handleAddUrl_validation_spec _ _ _).2 (by decide) (by decide) (by decide),
   (handleAddUrl_validation_spec _ _ _).1 (by decide)⟩

/-- Claim C5: both ingest handlers treat a response as success exactly
when its reported status equals `"ready"` — success banner plus a
document-list reload — while any other returned status is surfaced as an
error with no reload.  For `handleAddUrl` the property is stated under
the hypothesis that validation passed (the trimmed input starts with
`"http://"`). -/
theorem ingest_status_spec (s : DocManagerState) (fileName : Str)
    (upResp : UploadResponse) (ingResp : IngestUrlsResponse)
    (listResp : DocumentListResponse) :
    ((handleFileSelect s fileName upResp listResp).2 = true ↔
        upResp.status = some (str "ready"))
    ∧ (upResp.status = some (str "ready") →
        (handleFileSelect s fileName upResp listResp).1.successMsg
            = some (uploadSuccessMsg fileName)
        ∧ (handleFileSelect s fileName upResp listResp).1.documents
            = listResp.documents)
    ∧ (upResp.status ≠ some (str "ready") →
        (handleFileSelect s fileName upResp listResp).1.errorMsg = upResp.status
        ∧ (handleFileSelect s fileName upResp listResp).1.successMsg = none
        ∧ (handleFileSelect s fileName upResp listResp).2 = false)
    ∧ ((str "http://").isPrefixOf (trimChars s.urlInput) = true →
        (((handleAddUrl s ingResp listResp).2.2 = true ↔
            firstDocStatus ingResp = some (str "ready"))
         ∧ ∀ st, firstDocStatus ingResp = some st → st ≠ str "ready" →
             (handleAddUrl s ingResp listResp).1.errorMsg ≠ none
             ∧ (handleAddUrl s ingResp listResp).1.successMsg = none
             ∧ (handleAddUrl s ingResp listResp).2.2 = false)) := by
  refine ⟨?_, ?_, ?_, ?_⟩
  · by_cases hst : upResp.status = some (str "ready") <;>
      simp [handleFileSelect, hst]
  · intro hst
    simp [handleFileSelect, hst, applyLoadDocuments]
  · intro hst
    simp [handleFileSelect, hst]
  · intro hpre
    have hne : trimChars s.urlInput ≠ [] := by
      intro hnil
      rw [hnil] at hpre
      exact absurd hpre (by decide)
    have hrun : handleAddUrl s ingResp listResp =
        (let s0 : DocManagerState := { s with errorMsg := none, successMsg := none }
         match (ingResp.documents.getD []).head? with
         | some firstDoc =>
           if firstDoc.status = some (str "ready") then
             (applyLoadDocuments
               { s0 with successMsg := some (urlSuccessMsg (trimChars s.urlInput)
                                              (firstDoc.chunk_count.getD 0)),
                         urlInput := [],
                         addDialogOpen := false } listResp, true, true)
           else
             match firstDoc.status with
             | some st =>
               if (str "failed").isPrefixOf st then
                 ({ s0 with errorMsg := some st }, true, false)
               else
                 ({ s0 with errorMsg := some addUrlFailMsg }, true, false)
             | none => ({ s0 with errorMsg := some addUrlFailMsg }, true, false)
         | none => ({ s0 with errorMsg := some addUrlFailMsg }, true, false)) := by
      unfold handleAddUrl
      simp [hne, hpre]
    rw [hrun]
    cases hh : (ingResp.documents.getD []).head? with
    | none =>
      simp [firstDocStatus, hh]
    | some firstDoc =>
      by_cases hds : firstDoc.status = some (str "ready")
      · simp [firstDocStatus, hh, hds]
      · cases hfs : firstDoc.status with
        | none =>
          simp [firstDocStatus, hh, hfs]
        | some st =>
          have hstne : st ≠ str "ready" := by
            intro hr; exact hds (by rw [hfs, hr])
          by_cases hfp : (str "failed").isPrefixOf st <;>
            simp [firstDocStatus, hh, hfs, hds, hfp, hstne]

/-- Witness for C5: a ready upload reloads with the success banner, a
failed upload surfaces its status, and a failed URL ingest (validation
passed) surfaces an error without reloading. -/
theorem ingest_status_spec_witness :
    (handleFileSelect ⟨[], 0, 0, false, none, none, []⟩ (str "a.txt")
        ⟨some (str "ready")⟩ ⟨[], 3, 7⟩).1.successMsg
      = some (uploadSuccessMsg (str "a.txt"))
    ∧ (handleFileSelect ⟨[], 0, 0, false, none, none, []⟩ (str "a.txt")
        ⟨some (str "failed: empty")⟩ ⟨[], 3, 7⟩).1.errorMsg
      = some (str "failed: empty")
    ∧ (handleAddUrl ⟨[], 0, 0, true, none, none, str "http://x"⟩
        ⟨some [⟨some (str "failed: crawl"), none⟩]⟩ ⟨[], 3, 7⟩).2.2 = false :=
  ⟨((ingest_status_spec _ (str "a.txt") ⟨some (str "ready")⟩ ⟨none⟩ ⟨[], 3, 7⟩).2.1
      (by decide)).1,
   ((ingest_status_spec _ (str "a.txt") ⟨some (str "failed: empty")⟩ ⟨none⟩ ⟨[], 3, 7⟩).2.2.1
      (by decide)).1,
   (((ingest_status_spec ⟨[], 0, 0, true, none, none, str "http://x"⟩ []
        ⟨none⟩ ⟨some [⟨some (str "failed: crawl"), none⟩]⟩ ⟨[], 3, 7⟩).2.2.2
      (by decide)).2 (str "failed: crawl") (by decide) (by decide)).2.2⟩

/-- Joining the consecutive 9-element page slices of a list recovers its
first `m * 9` elements. -/
theorem join_page_slices (l : List DocumentInfo) (m : Nat) :
    ((List.range m).map (fun i => (l.take ((i + 1) * 9)).drop ((i + 1 - 1) * 9))).flatten
      = l.take (m * 9) := by
  induction m with
  | zero => simp
  | succ n ih =>
    rw [List.range_succ, List.map_append, List.flatten_append, ih]
    simp only [List.map_cons, List.map_nil, List.flatten_cons, List.flatten_nil, List.append_nil]
    have h1 : (n + 1 - 1) * 9 = n * 9 := by omega
    have h2 : (n + 1) * 9 = n * 9 + 9 := by ring
    rw [h1, h2, ← List.take_drop, List.take_add]

/-- Claim C9: for every document list and sort mode, `sortedDocuments` is
a permutation of the fetched documents, every page slice holds at most
`pageSize = 9` entries, and the concatenation of the slices for pages
`1 .. totalPages` is exactly `sortedDocuments`, so each document occurs
on exactly one page. -/
theorem documents_pagination_spec (t : SortType) (docs : List DocumentInfo) (page : Nat) :
    (sortedDocuments t docs).Perm docs
    ∧ (paginatedDocuments t docs page).length ≤ pageSize
    ∧ ((List.range (totalPages t docs)).map
        (fun i => paginatedDocuments t docs (i + 1))).flatten = sortedDocuments t docs := by
  refine ⟨List.mergeSort_perm docs _, ?_, ?_⟩
  · simp only [paginatedDocuments, jsSlice, pageSize, List.length_drop, List.length_take]
    omega
  · simp only [paginatedDocuments, jsSlice, pageSize]
    rw [join_page_slices]
    apply List.take_of_length_le
    simp only [totalPages, pageSize]
    have hdm := Nat.div_add_mod ((sortedDocuments t docs).length + 9 - 1) 9
    have hlt := Nat.mod_lt ((sortedDocuments t docs).length + 9 - 1) (by omega : 0 < 9)
    omega

/-- Unfolding equation of `splitOnNl` on a cons, phrased through
`consFirst`. -/
theorem splitOnNl_cons (c : Char) (l : Str) :
    splitOnNl (c :: l) =
      if c = '\n' then [] :: splitOnNl l else consFirst c (splitOnNl l) := by
  by_cases h : c = '\n'
  · simp [splitOnNl, h]
  · simp only [splitOnNl, h, if_false, ite_false]
    cases splitOnNl l <;> rfl

/-- A split is never empty. -/
theorem splitOnNl_ne_nil (l : Str) : splitOnNl l ≠ [] := by
  cases l with
  | nil => simp [splitOnNl]
  | cons c rest =>
    rw [splitOnNl_cons]
    by_cases h : c = '\n'
    · simp [h]
    · simp only [h, ite_false]
      cases splitOnNl rest <;> simp [consFirst]

/-- Splitting a newline-free string yields the string as a single piece. -/
theorem noNl_splitOnNl (l : Str) (h : '\n' ∉ l) : splitOnNl l = [l] := by
  induction l with
  | nil => rfl
  | cons c rest ih =>
    have hc : ¬ c = '\n' := fun he => h (by rw [he]; exact List.mem_cons_self _ _)
    rw [splitOnNl_cons, if_neg hc, ih (fun hm => h (List.mem_cons_of_mem _ hm))]
    rfl

/-- No piece of a split contains a newline. -/
theorem splitOnNl_mem_noNl (l : Str) : ∀ p ∈ splitOnNl l, '\n' ∉ p := by
  induction l with
  | nil =>
    intro p hp
    simp only [splitOnNl, List.mem_singleton] at hp
    subst hp; simp
  | cons c rest ih =>
    intro p hp
    rw [splitOnNl_cons] at hp
    by_cases hc : c = '\n'
    · rw [if_pos hc] at hp
      rcases List.mem_cons.mp hp with rfl | hp
      · simp
      · exact ih p hp
    · rw [if_neg hc] at hp
      cases hs : splitOnNl rest with
      | nil => exact absurd hs (splitOnNl_ne_nil rest)
      | cons q qs =>
        rw [hs] at hp
        simp only [consFirst] at hp
        rcases List.mem_cons.mp hp with rfl | hp
        · intro hm
          rcases List.mem_cons.mp hm with he | hm
          · exact hc he.symm
          · exact ih q (by rw [hs]; exact List.mem_cons_self _ _) hm
        · exact ih p (by rw [hs]; exact List.mem_cons_of_mem _ hp)

/-- Equation for `popLast` on a cons with a non-empty tail. -/
theorem popLast_cons_of_ne_nil (x : Str) (l : List Str) (h : l ≠ []) :
    popLast (x :: l) = (x :: (popLast l).1, (popLast l).2) := by
  cases l with
  | nil => exact absurd rfl h
  | cons y ys => rfl

/-- Popping the last element of a concatenation whose right part is
non-empty pops inside the right part. -/
theorem popLast_append (xs ys : List Str) (h : ys ≠ []) :
    popLast (xs ++ ys) = (xs ++ (popLast ys).1, (popLast ys).2) := by
  induction xs with
  | nil => simp
  | cons x xs2 ih =>
    have hne : xs2 ++ ys ≠ [] := by
      intro hh
      exact h (List.append_eq_nil.mp hh).2
    rw [List.cons_append, popLast_cons_of_ne_nil x _ hne, ih]
    rfl

/-- The popped last element is a member of the list. -/
theorem popLast_snd_mem (P : List Str) (h : P ≠ []) : (popLast P).2 ∈ P := by
  induction P with
  | nil => exact absurd rfl h
  | cons x xs ih =>
    cases xs with
    | nil => simp [popLast]
    | cons y ys =>
      rw [popLast_cons_of_ne_nil x _ (by simp)]
      exact List.mem_cons_of_mem _ (ih (by simp))

/-- A `joinParts` concatenation keeps every piece of the left split but
its last, which is merged into the head of the right split. -/
theorem joinParts_eq (P B : List Str) (h : P ≠ []) :
    joinParts P B = (popLast P).1 ++ mergeFirst (popLast P).2 B := by
  induction P with
  | nil => exact absurd rfl h
  | cons x xs ih =>
    cases xs with
    | nil => rfl
    | cons y ys =>
      rw [show joinParts (x :: y :: ys) B = x :: joinParts (y :: ys) B from rfl,
          ih (by simp), popLast_cons_of_ne_nil x _ (by simp)]
      rfl

/-- Splitting a concatenation is joining the splits. -/
theorem splitOnNl_append (a b : Str) :
    splitOnNl (a ++ b) = joinParts (splitOnNl a) (splitOnNl b) := by
  induction a with
  | nil =>
    show splitOnNl b = joinParts [[]] (splitOnNl b)
    cases hb : splitOnNl b with
    | nil => exact absurd hb (splitOnNl_ne_nil b)
    | cons y ys => rfl
  | cons c a2 ih =>
    rw [List.cons_append, splitOnNl_cons, splitOnNl_cons]
    by_cases hc : c = '\n'
    · rw [if_pos hc, if_pos hc, ih]
      cases hs : splitOnNl a2 with
      | nil => exact absurd hs (splitOnNl_ne_nil a2)
      | cons s ss => rfl
    · rw [if_neg hc, if_neg hc, ih]
      cases hs : splitOnNl a2 with
      | nil => exact absurd hs (splitOnNl_ne_nil a2)
      | cons s ss =>
        cases ss with
        | nil =>
          cases hb : splitOnNl b with
          | nil => exact absurd hb (splitOnNl_ne_nil b)
          | cons y ys => rfl
        | cons t ts => rfl

/-- Running the line loop over a concatenation: if the first part halts,
the second is never reached; otherwise the outputs concatenate. -/
theorem processLines_append (parse : Str → Option SseData) (l1 l2 : List Str) :
    ∀ s : SseState,
    processLines parse s (l1 ++ l2) =
      if (processLines parse s l1).halted then processLines parse s l1
      else ⟨(processLines parse (processLines parse s l1).state l2).state,
            (processLines parse s l1).output
              ++ (processLines parse (processLines parse s l1).state l2).output,
            (processLines parse (processLines parse s l1).state l2).halted⟩ := by
  induction l1 with
  | nil =>
    intro s
    simp [processLines]
  | cons line rest ih =>
    intro s
    rw [List.cons_append]
    by_cases hb : (processLine parse s line).2.2
    · simp [processLines, hb]
    · simp only [processLines, hb, if_false, ite_false, Bool.false_eq_true]
      rw [ih]
      by_cases hh : (processLines parse (processLine parse s line).1 rest).halted
      · simp [hh]
      · simp [hh, List.append_assoc]

/-- Inequalities between the event-name literals, used to discharge the
event dispatch. -/
theorem metadata_ne_done : ¬ (str "metadata" = str "done") := by decide

/-- The metadata name differs from the token name. -/
theorem metadata_ne_token : ¬ (str "metadata" = str "token") := by decide

/-- The token name differs from the done name. -/
theorem token_ne_done : ¬ (str "token" = str "done") := by decide

/-- The error name differs from the done name. -/
theorem error_ne_done : ¬ (str "error" = str "done") := by decide

/-- The error name differs from the token name. -/
theorem error_ne_token : ¬ (str "error" = str "token") := by decide

/-- The token name differs from the metadata name. -/
theorem token_ne_metadata : ¬ (str "token" = str "metadata") := by decide

/-- The done name differs from the metadata name. -/
theorem done_ne_metadata : ¬ (str "done" = str "metadata") := by decide

/-- The done name differs from the token name. -/
theorem done_ne_token : ¬ (str "done" = str "token") := by decide

/-- The error name differs from the metadata name. -/
theorem error_ne_metadata : ¬ (str "error" = str "metadata") := by decide

/-- Equation for `tokensBeforeDone` on a cons. -/
theorem tokensBeforeDone_cons (e : Str × SseData) (es : List (Str × SseData)) :
    tokensBeforeDone (e :: es) =
      if e.1 = str "done" then []
      else if e.1 = str "token" then jsTokenValue e.2 :: tokensBeforeDone es
      else tokensBeforeDone es := by
  by_cases hd : e.1 = str "done"
  · simp [tokensBeforeDone, hd, List.takeWhile_cons]
  · by_cases ht : e.1 = str "token"
    · simp [tokensBeforeDone, hd, ht, List.takeWhile_cons, List.filterMap_cons,
        token_ne_done]
    · simp [tokensBeforeDone, hd, ht, List.takeWhile_cons, List.filterMap_cons]

/-- Core correspondence: the fragments yielded by the line loop are
exactly the token values of the token events before the first done
event, for the event view taken at the loop's current event name. -/
theorem processLines_output_eq (parse : Str → Option SseData) :
    ∀ (L : List Str) (s : SseState),
    (processLines parse s L).output = tokensBeforeDone (sseEvents parse s.currentEvent L) := by
  intro L
  induction L with
  | nil => intro s; rfl
  | cons line rest ih =>
    intro s
    by_cases h1 : trimChars line = []
    · have hmach : (processLines parse s (line :: rest)).output
          = (processLines parse s rest).output := by
        simp [processLines, processLine, h1]
      have hspec : sseEvents parse s.currentEvent (line :: rest)
          = sseEvents parse s.currentEvent rest := by
        simp [sseEvents, h1]
      rw [hmach, hspec, ih s]
    · by_cases h2 : (str "event: ").isPrefixOf line
      · have hmach : (processLines parse s (line :: rest)).output
            = (processLines parse { s with currentEvent := trimChars (line.drop 7) } rest).output := by
          simp [processLines, processLine, h1, h2]
        have hspec : sseEvents parse s.currentEvent (line :: rest)
            = sseEvents parse (trimChars (line.drop 7)) rest := by
          simp [sseEvents, h1, h2]
        rw [hmach, hspec]
        simpa using ih { s with currentEvent := trimChars (line.drop 7) }
      · by_cases h3 : (str "data: ").isPrefixOf line
        · cases hp : parse (line.drop 6) with
          | none =>
            have hmach : (processLines parse s (line :: rest)).output
                = (processLines parse s rest).output := by
              simp [processLines, processLine, h1, h2, h3, hp]
            have hspec : sseEvents parse s.currentEvent (line :: rest)
                = sseEvents parse s.currentEvent rest := by
              simp [sseEvents, h1, h2, h3, hp]
            rw [hmach, hspec, ih s]
          | some d =>
            have hspec : sseEvents parse s.currentEvent (line :: rest)
                = (s.currentEvent, d) :: sseEvents parse s.currentEvent rest := by
              simp [sseEvents, h1, h2, h3, hp]
            rw [hspec, tokensBeforeDone_cons]
            by_cases hm : s.currentEvent = str "metadata"
            · have hmach : (processLines parse s (line :: rest)).output
                  = (processLines parse { s with sessionId := d.session_id } rest).output := by
                simp [processLines, processLine, h1, h2, h3, hp, hm]
              rw [hmach, if_neg (by rw [hm]; exact metadata_ne_done),
                  if_neg (by rw [hm]; exact metadata_ne_token)]
              simpa using ih { s with sessionId := d.session_id }
            · by_cases ht : s.currentEvent = str "token"
              · have hmach : (processLines parse s (line :: rest)).output
                    = jsTokenValue d :: (processLines parse s rest).output := by
                  simp [processLines, processLine, h1, h2, h3, hp, ht, token_ne_metadata]
                rw [hmach, if_neg (by rw [ht]; exact token_ne_done), if_pos ht, ih s]
              · by_cases hdn : s.currentEvent = str "done"
                · have hmach : (processLines parse s (line :: rest)).output = [] := by
                    simp [processLines, processLine, h1, h2, h3, hp, hdn,
                      done_ne_metadata, done_ne_token]
                  rw [hmach, if_pos hdn]
                · have hmach : (processLines parse s (line :: rest)).output
                      = (processLines parse s rest).output := by
                    by_cases he : s.currentEvent = str "error"
                    · simp [processLines, processLine, h1, h2, h3, hp, he,
                        error_ne_metadata, error_ne_token, error_ne_done]
                    · simp [processLines, processLine, h1, h2, h3, hp, hm, ht, hdn, he]
                  rw [hmach, if_neg hdn, if_neg ht, ih s]
        · have hmach : (processLines parse s (line :: rest)).output
              = (processLines parse s rest).output := by
            simp [processLines, processLine, h1, h2, h3]
          have hspec : sseEvents parse s.currentEvent (line :: rest)
              = sseEvents parse s.currentEvent rest := by
            simp [sseEvents, h1, h2, h3]
          rw [hmach, hspec, ih s]

/-- The chunked reader loop computes the same fragments as the line loop
run over the complete lines of the concatenated input, for any
newline-free initial buffer. -/
theorem processChunks_eq (parse : Str → Option SseData) :
    ∀ (chunks : List Str) (s : SseState) (buffer : Str), '\n' ∉ buffer →
    (processChunks parse s buffer chunks).2 =
      (processLines parse s (completeLines (buffer ++ chunks.flatten))).output := by
  intro chunks
  induction chunks with
  | nil =>
    intro s buffer h
    simp only [processChunks, List.flatten_nil, List.append_nil, completeLines]
    rw [noNl_splitOnNl buffer h]
    rfl
  | cons chunk rest ih =>
    intro s buffer h
    have hnb : '\n' ∉ (popLast (splitOnNl (buffer ++ chunk))).2 :=
      splitOnNl_mem_noNl _ _ (popLast_snd_mem _ (splitOnNl_ne_nil _))
    have hsplit : splitOnNl (buffer ++ (chunk :: rest).flatten)
        = (popLast (splitOnNl (buffer ++ chunk))).1
          ++ splitOnNl ((popLast (splitOnNl (buffer ++ chunk))).2 ++ rest.flatten) := by
      rw [show buffer ++ (chunk :: rest).flatten = (buffer ++ chunk) ++ rest.flatten by
            simp [List.flatten_cons, List.append_assoc],
          splitOnNl_append (buffer ++ chunk) rest.flatten,
          joinParts_eq _ _ (splitOnNl_ne_nil _)]
      congr 1
      rw [splitOnNl_append _ rest.flatten, noNl_splitOnNl _ hnb]
      rfl
    have hlines : completeLines (buffer ++ (chunk :: rest).flatten)
        = (popLast (splitOnNl (buffer ++ chunk))).1
          ++ completeLines ((popLast (splitOnNl (buffer ++ chunk))).2 ++ rest.flatten) := by
      unfold completeLines
      rw [hsplit, popLast_append _ _ (splitOnNl_ne_nil _)]
    rw [hlines, processLines_append]
    simp only [processChunks]
    by_cases hh : (processLines parse s (popLast (splitOnNl (buffer ++ chunk))).1).halted
    · simp only [hh, if_true, ite_true]
    · simp only [hh, if_false, ite_false, Bool.false_eq_true]
      rw [ih _ _ hnb]

/-- The full `streamMessage` consumption, reduced to the declarative
event view of the concatenated body. -/
theorem streamTokens_eq_lines (parse : Str → Option SseData) (sid : Option Str)
    (chunks : List Str) :
    streamTokens parse sid chunks =
      tokensBeforeDone (sseEvents parse [] (completeLines chunks.flatten)) := by
  unfold streamTokens
  rw [processChunks_eq parse chunks ⟨[], sid⟩ [] (by simp)]
  rw [show ([] : Str) ++ chunks.flatten = chunks.flatten from by simp]
  exact processLines_output_eq parse _ ⟨[], sid⟩

/-- Claim C1: for every SSE response body consumed by `streamMessage`
(any chunking, any parse function for the payloads, any initial session
id), the yielded fragments are exactly the `token` field values of the
`token`-typed events that precede the first `done` event, in stream
order; `metadata`, `done` and `error` events are never yielded, and
nothing is yielded after the first `done` event. -/
theorem streamMessage_token_spec (parse : Str → Option SseData) (sid : Option Str)
    (chunks : List Str) :
    streamTokens parse sid chunks =
      tokensBeforeDone (sseEvents parse [] (completeLines chunks.flatten)) :=
  streamTokens_eq_lines parse sid chunks

/-- Claim C3: the token sequence yielded by `streamMessage` is a function
of the concatenated response bytes alone — two chunkings with the same
concatenation (including splits in the middle of an SSE line) yield
identical token sequences. -/
theorem streamMessage_chunking_invariant (parse : Str → Option SseData)
    (sid : Option Str) (c1 c2 : List Str) (h : c1.flatten = c2.flatten) :
    streamTokens parse sid c1 = streamTokens parse sid c2 := by
  rw [streamTokens_eq_lines, streamTokens_eq_lines, h]

/-- Witness for C3: the same SSE body split after four characters, and
split in the middle of the `data:` line, yields the same single token. -/
theorem streamMessage_chunking_invariant_witness :
    ([str "event: token\ndata: \x7b\"token\":\"AB\"\x7d\n"] : List Str).flatten
      = ([str "event: token\nda", str "ta: \x7b\"token\":\"AB\"\x7d\n"] : List Str).flatten
    ∧ streamTokens parseSseJson none [str "event: token\ndata: \x7b\"token\":\"AB\"\x7d\n"]
      = streamTokens parseSseJson none
          [str "event: token\nda", str "ta: \x7b\"token\":\"AB\"\x7d\n"] :=
  ⟨by decide,
   streamMessage_chunking_invariant parseSseJson none _ _ (by decide)⟩

/-- Claim C2 (code bug): an `error` event does not end the stream and no
exception reaches the caller — the `throw` inside the `try` block is
caught by that block's own `catch`, which merely logs — so `token`
events that follow the `error` event in the byte stream are still
yielded.  Concretely, with an error event between tokens `A` and `B`,
both `A` and `B` are yielded. -/
theorem streamMessage_error_not_terminal :
    streamTokens parseSseJson none
      [str "event: token\ndata: \x7b\"token\":\"A\"\x7d\nevent: error\ndata: \x7b\"error\":\"boom\"\x7d\nevent: token\ndata: \x7b\"token\":\"B\"\x7d\nevent: done\ndata: \x7b\x7d\n"]
      = [str "A", str "B"] := by decide

end AssistantBot
